import Mathlib

/-!
# Media Lens dashboard — verification of the data-cleaning and aggregation core

A shallow embedding of the data pipeline of `app.py` (the `load_data`
cleaning function, the `apply_filters` filter, the `smooth` rolling
average, and the group-by aggregations feeding the charts), with theorems
settling the specification's testable properties.

Tables are lists of records; numeric `value` columns are embedded as `ℚ`
(the source holds IEEE doubles; every property checked here concerns exact
structure — row removal, clamping, ranking comparisons, running means on
small rationals — where the embedding is faithful).  Dates are embedded as
`Nat` in `YYYYMMDD` form; the source parses its `%Y%m%dT%H%M%SZ` strings
into timestamps whose only uses in the pipeline are equality and ordering,
which the numeric form preserves.  `pd.NA` markers that are immediately
dropped are embedded by filtering with the same predicate that produced
them.
-/

namespace MediaLens

/-- One record of the long-form tone/volume table
(`gdelt_us_politics_tone_and_topics_long.csv`):
one row per (date, outlet, topic, metric). -/
structure TVRow where
  date : Nat
  year : Int
  outlet : String
  topic : String
  metric : String
  value : ℚ
deriving DecidableEq, Repr

/-- One record of the topic-share table (`gdelt_us_politics_topic_share.csv`).
`topicShare` is `Option ℚ`: `none` embeds a NaN share (caused upstream by a
zero total volume), which `load_data` drops. -/
structure TSRow where
  date : Nat
  year : Int
  outlet : String
  topic : String
  value : ℚ
  topicShare : Option ℚ
deriving DecidableEq, Repr

/-- The documented GDELT full-ingestion-failure date, `pd.Timestamp("2025-12-06")`. -/
def blackoutDate : Nat := 20251206

/-- The (date, outlet, topic) key used by the zero-volume correlation join. -/
def tvKey (r : TVRow) : Nat × String × String := (r.date, r.outlet, r.topic)

/-- Step 2 of `load_data`: drop every row with `year == 2026`
(the incomplete most recent period). -/
def dropYear2026 (df : List TVRow) : List TVRow :=
  df.filter (fun r => decide (r.year ≠ 2026))

/-- The `missing_keys` frame of `load_data` step 3: the (date, outlet, topic)
keys of the rows where `metric == "volume"` and `value == 0`. -/
def zeroVolKeys (df : List TVRow) : List (Nat × String × String) :=
  (df.filter (fun r => decide (r.metric = "volume" ∧ r.value = 0))).map tvKey

/-- `load_data` step 3: zero-valued volume rows are marked NA, the tone rows
whose (date, outlet, topic) key matches a zero-volume key are marked NA via
the inner merge with `missing_keys`, and all NA-valued rows are dropped. -/
def dropZeroVolPairs (df : List TVRow) : List TVRow :=
  df.filter (fun r =>
    !(decide (r.metric = "volume" ∧ r.value = 0) ||
      decide (r.metric = "tone" ∧ tvKey r ∈ zeroVolKeys df)))

/-- `load_data` step 4: `clip(lower=-10, upper=10)` applied to the `value` of
`tone` rows (other rows untouched). -/
def clipRow (r : TVRow) : TVRow :=
  if r.metric = "tone" then { r with value := min (max r.value (-10)) 10 } else r

/-- `load_data` step 5: drop every row dated 2025-12-06. -/
def dropBlackout (df : List TVRow) : List TVRow :=
  df.filter (fun r => decide (r.date ≠ blackoutDate))

/-- The tone/volume half of `load_data` (app.py lines 117-172), steps in the
source's order: 2026 removal, zero-volume pair removal, tone clipping,
blackout-date removal. -/
def cleanToneVol (df : List TVRow) : List TVRow :=
  dropBlackout ((dropZeroVolPairs (dropYear2026 df)).map clipRow)

/-- The topic-share half of `load_data`:
drop `year == 2026`, drop rows with `value == 0` (marked NA then dropped),
drop rows whose `topic_share` is NaN, drop the blackout date. -/
def cleanTopicShare (df : List TSRow) : List TSRow :=
  let df1 := df.filter (fun r => decide (r.year ≠ 2026))
  let df2 := df1.filter (fun r => decide (¬ r.value = 0))
  let df3 := df2.filter (fun r => decide (r.topicShare ≠ none))
  df3.filter (fun r => decide (r.date ≠ blackoutDate))

/-- The 3-row raw fixture of the end-to-end cleaning scenario. -/
def fixtureRaw : List TVRow :=
  [ ⟨20170101, 2017, "CNN", "Economy", "volume", 0⟩,
    ⟨20170101, 2017, "CNN", "Economy", "tone", 21/5⟩,
    ⟨20170102, 2017, "CNN", "Economy", "tone", 15⟩ ]

/-- The non-`value` fields of a tone/volume row. -/
def rowShape (r : TVRow) : Nat × Int × String × String × String :=
  (r.date, r.year, r.outlet, r.topic, r.metric)

/-- The sidebar parameters consumed by `apply_filters`: an inclusive year
range plus the selected outlet and topic sets. -/
structure FilterParams where
  lo : Int
  hi : Int
  outlets : List String
  topics : List String
deriving DecidableEq, Repr

/-- `apply_filters` (app.py lines 236-243): keep the rows with
`year_range[0] <= year <= year_range[1]`, outlet in the selected outlets and
topic in the selected topics. -/
def applyFilters (p : FilterParams) (df : List TVRow) : List TVRow :=
  df.filter (fun r => decide
    (p.lo ≤ r.year ∧ r.year ≤ p.hi ∧ r.outlet ∈ p.outlets ∧ r.topic ∈ p.topics))

/-- Intersection of two filter-parameter sets: year ranges intersected,
outlet and topic sets intersected. -/
def interParams (p q : FilterParams) : FilterParams :=
  ⟨max p.lo q.lo, min p.hi q.hi,
    p.outlets.filter (fun s => decide (s ∈ q.outlets)),
    p.topics.filter (fun s => decide (s ∈ q.topics))⟩

/-- Arithmetic mean, as taken by the pandas `mean` aggregations. -/
def mean (l : List ℚ) : ℚ := l.sum / l.length

/-- Sample variance with the pandas default `ddof=1`, `none` embedding the
NaN that `std` yields on a partition of at most one observation.  The
source's `std_tone` is the square root of this quantity; the square root —
unavailable on `ℚ` — changes neither the nullity nor the zero-ness that the
spec constrains, so the variance is the value carried here. -/
def sampleVar (l : List ℚ) : Option ℚ :=
  if l.length ≤ 1 then none
  else some ((l.map (fun x => (x - mean l) ^ 2)).sum / ((l.length : ℚ) - 1))

/-- One cell of `topic_year_stats` (app.py lines 344-353) after the
`fillna(0)`: per (year, topic), the mean tone, the (variance-embedded)
spread statistic before and after null-filling, and the observation count. -/
structure StatCell where
  year : Int
  topic : String
  avgTone : ℚ
  stdRaw : Option ℚ
  stdTone : ℚ
  nDays : Nat
deriving DecidableEq, Repr

/-- The tone values of the (year, topic) partition. -/
def valuesYT (rows : List TVRow) (y : Int) (t : String) : List ℚ :=
  (rows.filter (fun r => decide (r.year = y ∧ r.topic = t))).map (fun r => r.value)

/-- `topic_year_stats`: group `tone_f` by (year, topic) and aggregate mean,
standard deviation and count; then `std_tone = std_tone.fillna(0)`. -/
def topicYearStats (rows : List TVRow) : List StatCell :=
  ((rows.map (fun r => (r.year, r.topic))).dedup).map (fun k =>
    { year := k.1, topic := k.2,
      avgTone := mean (valuesYT rows k.1 k.2),
      stdRaw := sampleVar (valuesYT rows k.1 k.2),
      stdTone := (sampleVar (valuesYT rows k.1 k.2)).getD 0,
      nDays := (valuesYT rows k.1 k.2).length })

/-- One row of `yearly_tone` before ranking: mean tone per (year, outlet). -/
structure YTCell where
  year : Int
  outlet : String
  value : ℚ
deriving DecidableEq, Repr

/-- The `yearly_tone` group-by (app.py lines 982-986): mean tone per
(year, outlet). -/
def yearlyToneCells (rows : List TVRow) : List YTCell :=
  ((rows.map (fun r => (r.year, r.outlet))).dedup).map (fun k =>
    ⟨k.1, k.2,
      mean ((rows.filter (fun r => decide (r.year = k.1 ∧ r.outlet = k.2))).map
        (fun r => r.value))⟩)

/-- `rank(method="min")` over a group of values: values are ranked by
ascending sorted position (1-based), a run of ties taking the position of
its first member. -/
def rankMin (vals : List ℚ) (v : ℚ) : Nat :=
  (List.insertionSort (fun a b : ℚ => a ≤ b) vals).findIdx
    (fun u => decide (u = v)) + 1

/-- `yearly_tone["rank"]` (app.py line 987): per year, rank the outlet mean
tones ascending with minimum-rank tie semantics. -/
def yearlyRank (cells : List YTCell) : List (YTCell × Nat) :=
  cells.map (fun c =>
    (c, rankMin ((cells.filter (fun d => decide (d.year = c.year))).map
      (fun d => d.value)) c.value))

/-- One row of `deviation_df` (app.py lines 806-822): an (outlet, topic)
group's mean tone, the all-outlet topic mean, their difference and the
qualitative direction label from
`np.where(deviation >= 0, "Less negative", "More negative")`. -/
structure DevRow where
  outlet : String
  topic : String
  outletTone : ℚ
  topicAvg : ℚ
  deviation : ℚ
  direction : String
deriving DecidableEq, Repr

/-- The tone values of the (outlet, topic) partition. -/
def valuesOT (rows : List TVRow) (o t : String) : List ℚ :=
  (rows.filter (fun r => decide (r.outlet = o ∧ r.topic = t))).map (fun r => r.value)

/-- The tone values of a topic across all outlets. -/
def valuesTopic (rows : List TVRow) (t : String) : List ℚ :=
  (rows.filter (fun r => decide (r.topic = t))).map (fun r => r.value)

/-- `deviation_df`: per (outlet, topic), the outlet mean tone merged with the
topic mean, the deviation, and the direction label. -/
def deviationDf (rows : List TVRow) : List DevRow :=
  ((rows.map (fun r => (r.outlet, r.topic))).dedup).map (fun k =>
    { outlet := k.1, topic := k.2,
      outletTone := mean (valuesOT rows k.1 k.2),
      topicAvg := mean (valuesTopic rows k.2),
      deviation := mean (valuesOT rows k.1 k.2) - mean (valuesTopic rows k.2),
      direction :=
        if 0 ≤ mean (valuesOT rows k.1 k.2) - mean (valuesTopic rows k.2)
        then "Less negative" else "More negative" })

/-- Replace a row's `value`, the only column `smooth` rewrites. -/
def setValue (r : TVRow) (q : ℚ) : TVRow := { r with value := q }

/-- The mean of the last `w` entries of a list (all of them when fewer than
`w` exist) — the `rolling(w, min_periods=1).mean()` window ending at the
list's last element. -/
def windowMean (w : Nat) (l : List ℚ) : ℚ := mean (l.drop (l.length - w))

/-- Date order on tone/volume rows, the `sort_values("date")` key. -/
def dateLe (a b : TVRow) : Prop := a.date ≤ b.date

instance : DecidableRel dateLe := fun a b => Nat.decLe a.date b.date

instance : IsTotal TVRow dateLe := ⟨fun a b => Nat.le_total a.date b.date⟩

instance : IsTrans TVRow dateLe := ⟨fun _ _ _ => Nat.le_trans⟩

/-- `df.sort_values("date")`.  The source's quicksort leaves the relative
order of equal dates unspecified; the embedding fixes a sort, and every
theorem about partition contents assumes distinct dates within the
partition, where the choice is immaterial. -/
def sortByDate (df : List TVRow) : List TVRow := List.insertionSort dateLe df

/-- The rolling pass of `smooth`: rows arrive in date order (`seen` is the
already-processed sorted prefix); each row's value becomes the trailing-`w`
mean of the values its (outlet, topic) group has produced up to and
including the row — `groupby(["outlet", "topic"])[value].transform(rolling
(window, min_periods=1).mean())`. -/
def smoothGo (w : Nat) (seen : List TVRow) : List TVRow → List TVRow
  | [] => []
  | r :: rest =>
      setValue r (windowMean w
        (((seen ++ [r]).filter (fun s =>
          decide (s.outlet = r.outlet ∧ s.topic = r.topic))).map
            (fun s => s.value))) ::
      smoothGo w (seen ++ [r]) rest

/-- `smooth` (app.py lines 251-259): identity for `window <= 1`, otherwise
the date-sorted frame with `value` replaced by the per-(outlet, topic)
trailing moving average with `min_periods=1`. -/
def smooth (df : List TVRow) (window : Nat) : List TVRow :=
  if window ≤ 1 then df else smoothGo window [] (sortByDate df)

/-- Modelled from the spec's words, for comparison with `smooth`: in a single
(outlet, topic) partition already sorted by date, the row at 1-based
position k takes the trailing simple moving average of the most recent
min(k, w) values — the last `w` of the partition's first k values. -/
def smoothSpecPart (w : Nat) (part : List TVRow) : List TVRow :=
  part.mapIdx (fun j r =>
    setValue r (mean (((part.map (fun s => s.value)).take (j + 1)).drop (j + 1 - w))))

/-- The per-partition rolling recursion `smoothGo` collapses to when every
row shares one (outlet, topic) key: `vals` carries the partition values
already seen. -/
def specGo (w : Nat) (vals : List ℚ) : List TVRow → List TVRow
  | [] => []
  | r :: rest =>
      setValue r (windowMean w (vals ++ [r.value])) ::
      specGo w (vals ++ [r.value]) rest

/-- A 2-row single-partition table used to instantiate the smoothing
theorem. -/
def smoothFixture : List TVRow :=
  [ ⟨20170102, 2017, "CNN", "Economy", "tone", 4⟩,
    ⟨20170101, 2017, "CNN", "Economy", "tone", 2⟩ ]

/-- One cell of the (topic, year) mean-tone table feeding the heatmap's
year-over-year computation. -/
structure TYCell where
  topic : String
  year : Int
  avgTone : ℚ
deriving DecidableEq, Repr

/-- The `avg_tone` cells of `topic_year_rich`, as produced by
`topic_year_stats`. -/
def tyCells (rows : List TVRow) : List TYCell :=
  (topicYearStats rows).map (fun c => ⟨c.topic, c.year, c.avgTone⟩)

/-- `sort_values(["topic", "year"])` order. -/
def lexLe (a b : TYCell) : Prop :=
  a.topic < b.topic ∨ (a.topic = b.topic ∧ a.year ≤ b.year)

/-- Strict (topic, year) order; a (topic, year)-deduplicated sorted cell list
is pairwise in this order. -/
def lexLt (a b : TYCell) : Prop :=
  a.topic < b.topic ∨ (a.topic = b.topic ∧ a.year < b.year)

instance : DecidableRel lexLe := fun a b => by
  unfold lexLe; infer_instance

instance : IsTotal TYCell lexLe :=
  ⟨fun a b => by
    unfold lexLe
    rcases lt_trichotomy a.topic b.topic with h | h | h
    · exact Or.inl (Or.inl h)
    · rcases Int.le_total a.year b.year with hy | hy
      · exact Or.inl (Or.inr ⟨h, hy⟩)
      · exact Or.inr (Or.inr ⟨h.symm, hy⟩)
    · exact Or.inr (Or.inl h)⟩

instance : IsTrans TYCell lexLe :=
  ⟨fun a b c hab hbc => by
    unfold lexLe at *
    rcases hab with h1 | ⟨h1, h1y⟩
    · rcases hbc with h2 | ⟨h2, _⟩
      · exact Or.inl (lt_trans h1 h2)
      · exact Or.inl (h2 ▸ h1)
    · rcases hbc with h2 | ⟨h2, h2y⟩
      · exact Or.inl (h1 ▸ h2)
      · exact Or.inr ⟨h1.trans h2, le_trans h1y h2y⟩⟩

/-- `topic_year_rich.sort_values(["topic", "year"])`. -/
def sortTY (cells : List TYCell) : List TYCell := List.insertionSort lexLe cells

/-- The `groupby("topic")["avg_tone"].shift(1)` / subtract / `fillna(0)`
chain (app.py lines 373-376): walking the sorted cells, each cell's delta is
its mean tone minus the mean tone of the previous cell of the same topic (0
when there is none). -/
def yoyGo (seen : List TYCell) : List TYCell → List (TYCell × ℚ)
  | [] => []
  | c :: rest =>
      (c, match (seen.filter (fun s => decide (s.topic = c.topic))).getLast? with
          | none => 0
          | some p => c.avgTone - p.avgTone) ::
      yoyGo (seen ++ [c]) rest

/-- The year-over-year columns of `topic_year_rich`: cells sorted by
(topic, year), each paired with its `yoy_change`. -/
def topicYearRich (rows : List TVRow) : List (TYCell × ℚ) :=
  yoyGo [] (sortTY (tyCells rows))

/-- C1: cleaning the 3-row raw fixture — (2017-01-01, CNN, Economy, volume, 0),
(2017-01-01, CNN, Economy, tone, 4.2), (2017-01-02, CNN, Economy, tone, 15) —
yields exactly one surviving row, (2017-01-02, CNN, Economy, tone, 10): the
zero-volume row and the same-key tone row are removed by zero-volume
correlation, and the remaining tone value 15 is clamped to 10. -/
theorem clean_fixture_single_row :
    cleanToneVol fixtureRaw = [⟨20170102, 2017, "CNN", "Economy", "tone", 10⟩] := by
  decide

/-- Clipping only rewrites the `value` field. -/
lemma clipRow_date (r : TVRow) : (clipRow r).date = r.date := by
  unfold clipRow; split <;> rfl

lemma clipRow_year (r : TVRow) : (clipRow r).year = r.year := by
  unfold clipRow; split <;> rfl

lemma clipRow_outlet (r : TVRow) : (clipRow r).outlet = r.outlet := by
  unfold clipRow; split <;> rfl

lemma clipRow_topic (r : TVRow) : (clipRow r).topic = r.topic := by
  unfold clipRow; split <;> rfl

lemma clipRow_metric (r : TVRow) : (clipRow r).metric = r.metric := by
  unfold clipRow; split <;> rfl

lemma clipRow_key (r : TVRow) : tvKey (clipRow r) = tvKey r := by
  simp [tvKey, clipRow_date, clipRow_outlet, clipRow_topic]

/-- Membership in the cleaned tone/volume table, unpacked: every surviving
row is the clip of a raw row that passed the 2026, zero-volume-pair and
blackout filters. -/
lemma mem_cleanToneVol {df : List TVRow} {r : TVRow} (hr : r ∈ cleanToneVol df) :
    ∃ s ∈ df, clipRow s = r ∧ s.year ≠ 2026 ∧ r.date ≠ blackoutDate ∧
      ¬(s.metric = "volume" ∧ s.value = 0) ∧
      ¬(s.metric = "tone" ∧ tvKey s ∈ zeroVolKeys (dropYear2026 df)) := by
  unfold cleanToneVol dropBlackout at hr
  rw [List.mem_filter] at hr
  obtain ⟨hmem, hbl⟩ := hr
  rw [List.mem_map] at hmem
  obtain ⟨s, hs, hclip⟩ := hmem
  unfold dropZeroVolPairs at hs
  rw [List.mem_filter] at hs
  obtain ⟨hs1, hpred⟩ := hs
  unfold dropYear2026 at hs1
  rw [List.mem_filter] at hs1
  obtain ⟨hsdf, hy⟩ := hs1
  simp only [Bool.not_eq_eq_eq_not, Bool.not_true, Bool.or_eq_false_iff,
    decide_eq_false_iff_not] at hpred
  exact ⟨s, hsdf, hclip, by simpa using hy, by simpa using hbl, hpred.1, hpred.2⟩

/-- C4: every row of both cleaned tables has `year ≠ 2026` and a date other
than the 2025-12-06 blackout date. -/
theorem no_forbidden_rows_survive (tv : List TVRow) (ts : List TSRow) :
    (∀ r ∈ cleanToneVol tv, r.year ≠ 2026 ∧ r.date ≠ blackoutDate) ∧
    (∀ s ∈ cleanTopicShare ts, s.year ≠ 2026 ∧ s.date ≠ blackoutDate) := by
  constructor
  · intro r hr
    obtain ⟨s, _, hclip, hy, hbl, -, -⟩ := mem_cleanToneVol hr
    refine ⟨?_, hbl⟩
    rw [← hclip, clipRow_year]
    exact hy
  · intro s hs
    unfold cleanTopicShare at hs
    simp only [List.mem_filter, decide_eq_true_eq] at hs
    exact ⟨hs.1.1.1.2, hs.2⟩

/-- A concrete instantiation of `no_forbidden_rows_survive`. -/
theorem no_forbidden_rows_survive_witness :
    (⟨20170102, 2017, "CNN", "Economy", "tone", 10⟩ : TVRow).year ≠ 2026 ∧
    (⟨20170102, 2017, "CNN", "Economy", "tone", 10⟩ : TVRow).date ≠ blackoutDate := by
  exact (no_forbidden_rows_survive fixtureRaw
    [⟨20180301, 2018, "WSJ", "Economy", 3, some (1/2)⟩]).1
    ⟨20170102, 2017, "CNN", "Economy", "tone", 10⟩ (by decide)

/-- C5: every `tone` row of the cleaned tone/volume table has value in
[-10, 10], and the clipping step itself only rewrites values: it removes no
row and leaves every non-`value` field of every row unchanged. -/
theorem tone_values_clamped (tv l : List TVRow) (r : TVRow)
    (hr : r ∈ cleanToneVol tv) (hm : r.metric = "tone") :
    (-10 ≤ r.value ∧ r.value ≤ 10) ∧
    (l.map clipRow).map rowShape = l.map rowShape := by
  constructor
  · obtain ⟨s, -, hclip, -, -, -, -⟩ := mem_cleanToneVol hr
    have hsm : s.metric = "tone" := by rw [← clipRow_metric, hclip]; exact hm
    rw [← hclip]
    unfold clipRow
    rw [if_pos hsm]
    constructor
    · exact le_min (le_max_right _ _) (by norm_num)
    · exact min_le_right _ _
  · induction l with
    | nil => rfl
    | cons a as ih =>
        simp only [List.map_cons, ih, List.cons.injEq, and_true]
        simp [rowShape, clipRow_date, clipRow_year, clipRow_outlet,
          clipRow_topic, clipRow_metric]

/-- A concrete instantiation of `tone_values_clamped`. -/
theorem tone_values_clamped_witness :
    (-10 ≤ ((⟨20170102, 2017, "CNN", "Economy", "tone", 10⟩ : TVRow)).value ∧
      ((⟨20170102, 2017, "CNN", "Economy", "tone", 10⟩ : TVRow)).value ≤ 10) ∧
    ([⟨20170103, 2017, "WSJ", "Economy", "tone", 17⟩].map clipRow).map rowShape =
      [(⟨20170103, 2017, "WSJ", "Economy", "tone", 17⟩ : TVRow)].map rowShape :=
  tone_values_clamped fixtureRaw [⟨20170103, 2017, "WSJ", "Economy", "tone", 17⟩]
    ⟨20170102, 2017, "CNN", "Economy", "tone", 10⟩ (by decide) (by decide)

/-- C2: in a well-formed raw table — at most one row per
(date, outlet, topic, metric), and a `year` column consistent with `date` —
a zero-valued `volume` row at key (d, o, t) forces the cleaned table to
contain no `volume` row and no `tone` row at that key: the pair is removed
as a unit. -/
theorem zero_volume_removes_pair (df : List TVRow)
    (huniq : ∀ r ∈ df, ∀ s ∈ df, tvKey r = tvKey s → r.metric = s.metric → r = s)
    (hyearcol : ∀ r ∈ df, ∀ s ∈ df, r.date = s.date → r.year = s.year)
    (r0 : TVRow) (h0 : r0 ∈ df) (hm0 : r0.metric = "volume") (hv0 : r0.value = 0) :
    ∀ r ∈ cleanToneVol df, r.metric = "volume" ∨ r.metric = "tone" →
      tvKey r ≠ tvKey r0 := by
  intro r hr hmet hkey
  obtain ⟨s, hsdf, hclip, hy, -, hnotvol, hnottone⟩ := mem_cleanToneVol hr
  have hks : tvKey s = tvKey r0 := by rw [← clipRow_key s, hclip]; exact hkey
  have hdate : s.date = r0.date := congrArg Prod.fst hks
  have hy0 : r0.year ≠ 2026 := by
    rw [← hyearcol s hsdf r0 h0 hdate]; exact hy
  have h01 : r0 ∈ dropYear2026 df := by
    unfold dropYear2026
    rw [List.mem_filter]
    exact ⟨h0, by simpa using hy0⟩
  have hkmem : tvKey r0 ∈ zeroVolKeys (dropYear2026 df) := by
    unfold zeroVolKeys
    rw [List.mem_map]
    exact ⟨r0, by rw [List.mem_filter]; exact ⟨h01, by simp [hm0, hv0]⟩, rfl⟩
  have hsm : s.metric = r.metric := by rw [← hclip, clipRow_metric]
  rcases hmet with hvol | htone
  · have : s = r0 := huniq s hsdf r0 h0 hks (by rw [hsm, hvol, hm0])
    exact hnotvol ⟨by rw [hsm, hvol], by rw [this]; exact hv0⟩
  · exact hnottone ⟨by rw [hsm, htone], by rw [hks]; exact hkmem⟩

/-- A concrete instantiation of `zero_volume_removes_pair`: in the cleaned
3-row table, the surviving tone row's key differs from the zero-volume
key. -/
theorem zero_volume_removes_pair_witness :
    tvKey ⟨20190506, 2019, "FoxNews", "Elections", "tone", 2⟩ ≠
      tvKey ⟨20190505, 2019, "FoxNews", "Elections", "volume", 0⟩ :=
  zero_volume_removes_pair
    [ ⟨20190505, 2019, "FoxNews", "Elections", "volume", 0⟩,
      ⟨20190505, 2019, "FoxNews", "Elections", "tone", 3⟩,
      ⟨20190506, 2019, "FoxNews", "Elections", "tone", 2⟩ ]
    (by decide) (by decide)
    ⟨20190505, 2019, "FoxNews", "Elections", "volume", 0⟩ (by decide) (by decide)
    (by decide)
    ⟨20190506, 2019, "FoxNews", "Elections", "tone", 2⟩ (by decide)
    (Or.inr (by decide))

/-- C9: applying two filter-parameter sets in sequence equals applying their
intersection once — year ranges intersect, outlet and topic sets intersect. -/
theorem filter_composition (p q : FilterParams) (df : List TVRow) :
    applyFilters q (applyFilters p df) = applyFilters (interParams p q) df := by
  unfold applyFilters interParams
  rw [List.filter_filter]
  apply List.filter_congr
  intro r _
  rw [← Bool.decide_and, decide_eq_decide]
  simp only [List.mem_filter, decide_eq_true_eq, max_le_iff, le_min_iff]
  tauto

/-- C10: an (outlet, topic) group of `deviation_df` is labeled
"More negative" exactly when its deviation is strictly negative; a deviation
of exactly 0 is labeled "Less negative". -/
theorem deviation_direction_label (rows : List TVRow) (g : DevRow)
    (hg : g ∈ deviationDf rows) :
    (g.direction = "More negative" ↔ g.deviation < 0) ∧
    (g.deviation = 0 → g.direction = "Less negative") := by
  unfold deviationDf at hg
  rw [List.mem_map] at hg
  obtain ⟨k, -, rfl⟩ := hg
  by_cases h : 0 ≤ mean (valuesOT rows k.1 k.2) - mean (valuesTopic rows k.2)
  · constructor
    · simp [h, not_lt.mpr h]
    · intro _; simp [h]
  · constructor
    · simp [h, not_le.mp h]
    · intro h0
      have hd0 : mean (valuesOT rows k.1 k.2) - mean (valuesTopic rows k.2) = 0 := h0
      exact absurd (le_of_eq hd0.symm) h

/-- A concrete instantiation of `deviation_direction_label`: a CNN Economy
mean tone of -3 against a topic average of 0 deviates by -3 and is labeled
"More negative". -/
theorem deviation_direction_label_witness :
    ((⟨"CNN", "Economy", -3, 0, -3, "More negative"⟩ : DevRow).direction =
        "More negative" ↔
      (⟨"CNN", "Economy", -3, 0, -3, "More negative"⟩ : DevRow).deviation < 0) ∧
    ((⟨"CNN", "Economy", -3, 0, -3, "More negative"⟩ : DevRow).deviation = 0 →
      (⟨"CNN", "Economy", -3, 0, -3, "More negative"⟩ : DevRow).direction =
        "Less negative") :=
  deviation_direction_label
    [ ⟨20200101, 2020, "CNN", "Economy", "tone", -3⟩,
      ⟨20200101, 2020, "FoxNews", "Economy", "tone", 3⟩ ]
    ⟨"CNN", "Economy", -3, 0, -3, "More negative"⟩
    (by
      refine List.mem_map.mpr ⟨("CNN", "Economy"), by decide, ?_⟩
      simp +decide only [valuesOT, valuesTopic, List.filter, List.map]
      norm_num [mean])

/-- C8: a (year, topic) partition of `topic_year_stats` holding exactly one
observation reports a null raw spread statistic, and the `fillna(0)` turns it
into exactly 0 in the output table — no null is propagated. -/
theorem single_observation_std_zero (rows : List TVRow) (c : StatCell)
    (hc : c ∈ topicYearStats rows) (h1 : c.nDays = 1) :
    c.stdRaw = none ∧ c.stdTone = 0 := by
  unfold topicYearStats at hc
  rw [List.mem_map] at hc
  obtain ⟨k, -, rfl⟩ := hc
  simp only at h1
  have hvar : sampleVar (valuesYT rows k.1 k.2) = none := by
    unfold sampleVar
    rw [if_pos (by omega)]
  exact ⟨hvar, by simp [hvar]⟩

/-- A concrete instantiation of `single_observation_std_zero` on a one-row
table. -/
theorem single_observation_std_zero_witness :
    (⟨2020, "Economy", 5, none, 0, 1⟩ : StatCell).stdRaw = none ∧
    (⟨2020, "Economy", 5, none, 0, 1⟩ : StatCell).stdTone = 0 :=
  single_observation_std_zero [⟨20200101, 2020, "CNN", "Economy", "tone", 5⟩]
    ⟨2020, "Economy", 5, none, 0, 1⟩
    (by
      refine List.mem_map.mpr ⟨(2020, "Economy"), by decide, ?_⟩
      simp +decide only [valuesYT, List.filter, List.map]
      norm_num [mean, sampleVar]) (by decide)

/-- Insertion-sorting rationals ascending yields a `≤`-pairwise list. -/
lemma pairwise_le_sortQ (l : List ℚ) :
    List.Pairwise (fun a b : ℚ => a ≤ b)
      (List.insertionSort (fun a b : ℚ => a ≤ b) l) :=
  List.sorted_insertionSort (fun a b : ℚ => a ≤ b) l

/-- In an ascending list, the index of the first occurrence of a present
value equals the number of strictly smaller entries. -/
lemma findIdx_sorted_eq_count_lt (s : List ℚ) (hs : List.Pairwise (fun a b : ℚ => a ≤ b) s)
    (v : ℚ) (hv : v ∈ s) :
    s.findIdx (fun u => decide (u = v)) =
      (s.filter (fun u => decide (u < v))).length := by
  induction s with
  | nil => cases hv
  | cons a rest ih =>
      rw [List.pairwise_cons] at hs
      obtain ⟨ha, hrest⟩ := hs
      by_cases hav : a = v
      · subst hav
        rw [List.findIdx_cons]
        simp only [decide_True, cond_true]
        have hnil : List.filter (fun u => decide (u < a)) (a :: rest) = [] := by
          rw [List.filter_eq_nil_iff]
          intro u hu
          simp only [decide_eq_true_eq, not_lt]
          rcases List.mem_cons.mp hu with h | h
          · exact le_of_eq h.symm
          · exact ha u h
        rw [hnil]
        rfl
      · have hvrest : v ∈ rest := by
          rcases List.mem_cons.mp hv with h | h
          · exact absurd h.symm hav
          · exact h
        have halt : a < v := lt_of_le_of_ne (ha v hvrest) hav
        rw [List.findIdx_cons]
        simp only [hav, decide_False, cond_false]
        rw [List.filter_cons_of_pos (by simpa using halt), List.length_cons,
          ih hrest hvrest]

/-- C7: within each year, an outlet's rank in `yearly_tone` is one plus the
number of same-year outlets with a strictly smaller mean tone — ascending
order with rank 1 for the most negative, minimum-rank ("competition") tie
semantics with the next distinct value skipping accordingly — and mean tones
[-5, -5, -2] in one year receive ranks [1, 1, 3]. -/
theorem yearly_rank_competition (cells : List YTCell) (c : YTCell) (rk : Nat)
    (h : (c, rk) ∈ yearlyRank cells) :
    rk = 1 + (cells.filter
        (fun d => decide (d.year = c.year ∧ d.value < c.value))).length ∧
    yearlyRank [⟨2020, "NYTimes", -5⟩, ⟨2020, "CNN", -5⟩, ⟨2020, "FoxNews", -2⟩] =
      [ (⟨2020, "NYTimes", -5⟩, 1), (⟨2020, "CNN", -5⟩, 1),
        (⟨2020, "FoxNews", -2⟩, 3) ] := by
  refine ⟨?_, by decide⟩
  unfold yearlyRank at h
  rw [List.mem_map] at h
  obtain ⟨c', hc', heq⟩ := h
  have h1 : c' = c := congrArg Prod.fst heq
  have h2 := congrArg Prod.snd heq
  simp only at h2
  rw [h1] at h2 hc'
  rw [← h2]
  set vals := (cells.filter (fun d => decide (d.year = c.year))).map
    (fun d => d.value) with hvals
  have hvmem : c.value ∈ vals := by
    rw [hvals, List.mem_map]
    exact ⟨c, by rw [List.mem_filter]; exact ⟨hc', by simp⟩, rfl⟩
  have hsmem : c.value ∈ List.insertionSort (fun a b : ℚ => a ≤ b) vals :=
    (List.perm_insertionSort _ vals).mem_iff.mpr hvmem
  unfold rankMin
  rw [findIdx_sorted_eq_count_lt _ (pairwise_le_sortQ vals) _ hsmem]
  rw [((List.perm_insertionSort _ vals).filter _).length_eq]
  rw [hvals, List.filter_map, List.length_map, List.filter_filter]
  rw [Nat.add_comm]
  congr 1
  refine congrArg List.length (List.filter_congr ?_)
  intro d _
  simp only [Function.comp_apply, ← Bool.decide_and, decide_eq_decide]
  tauto

/-- A concrete instantiation of `yearly_rank_competition`. -/
theorem yearly_rank_competition_witness :
    2 = 1 + ([ (⟨2021, "WSJ", -4⟩ : YTCell), ⟨2021, "Politico", -1⟩ ].filter
        (fun d => decide (d.year = (⟨2021, "Politico", -1⟩ : YTCell).year ∧
          d.value < (⟨2021, "Politico", -1⟩ : YTCell).value))).length ∧
    yearlyRank [⟨2020, "NYTimes", -5⟩, ⟨2020, "CNN", -5⟩, ⟨2020, "FoxNews", -2⟩] =
      [ (⟨2020, "NYTimes", -5⟩, 1), (⟨2020, "CNN", -5⟩, 1),
        (⟨2020, "FoxNews", -2⟩, 3) ] :=
  yearly_rank_competition [⟨2021, "WSJ", -4⟩, ⟨2021, "Politico", -1⟩]
    ⟨2021, "Politico", -1⟩ 2 (by decide)

/-- The rolling pass outputs one row per input row. -/
lemma smoothGo_length (w : Nat) :
    ∀ (l seen : List TVRow), (smoothGo w seen l).length = l.length := by
  intro l
  induction l with
  | nil => intro seen; rfl
  | cons r rest ih => intro seen; simp [smoothGo, ih]

/-- Restricting the rolling pass to one (outlet, topic) key yields the
single-partition recursion, seeded with the values of `seen`'s rows of that
key. -/
lemma smoothGo_filter (w : Nat) (o t : String) :
    ∀ (l seen : List TVRow),
      (smoothGo w seen l).filter (fun r => decide (r.outlet = o ∧ r.topic = t)) =
        specGo w
          ((seen.filter (fun r => decide (r.outlet = o ∧ r.topic = t))).map
            (fun r => r.value))
          (l.filter (fun r => decide (r.outlet = o ∧ r.topic = t))) := by
  intro l
  induction l with
  | nil => intro seen; rfl
  | cons r rest ih =>
      intro seen
      by_cases hp : r.outlet = o ∧ r.topic = t
      · have hpr : (fun s : TVRow => decide (s.outlet = r.outlet ∧ s.topic = r.topic)) =
            (fun s : TVRow => decide (s.outlet = o ∧ s.topic = t)) := by
          funext s
          rw [hp.1, hp.2]
        have hsingle :
            List.filter (fun r => decide (r.outlet = o ∧ r.topic = t)) [r] = [r] := by
          simp [hp.1, hp.2]
        simp only [smoothGo]
        rw [List.filter_cons_of_pos (by simpa [setValue] using hp),
          List.filter_cons_of_pos (by simpa using hp)]
        simp only [specGo]
        rw [ih (seen ++ [r]), hpr, List.filter_append, hsingle, List.map_append]
        rfl
      · have hskip :
            List.filter (fun r => decide (r.outlet = o ∧ r.topic = t)) [r] = [] := by
          rw [List.filter_cons_of_neg (by simpa using hp)]
          rfl
        simp only [smoothGo]
        rw [List.filter_cons_of_neg (by simpa [setValue] using hp),
          List.filter_cons_of_neg (by simpa using hp)]
        rw [ih (seen ++ [r]), List.filter_append, hskip, List.append_nil]

/-- The single-partition recursion computes, at 0-based position j, the mean
of the last `w` of the first j+1 partition values (prefixed by the seed). -/
lemma specGo_eq_mapIdx (w : Nat) :
    ∀ (part : List TVRow) (vals : List ℚ),
      specGo w vals part = part.mapIdx (fun j r =>
        setValue r (mean ((vals ++ (part.map (fun s => s.value)).take (j + 1)).drop
          (vals.length + (j + 1) - w)))) := by
  intro part
  induction part with
  | nil => intro vals; rfl
  | cons r rest ih =>
      intro vals
      rw [List.mapIdx_cons]
      simp only [specGo]
      congr 1
      · unfold windowMean
        congr 1
        simp [List.length_append]
      · rw [ih (vals ++ [r.value])]
        congr 1
        funext j r'
        have hlist : (vals ++ [r.value]) ++
              (List.map (fun s : TVRow => s.value) rest).take (j + 1) =
            vals ++ (List.map (fun s : TVRow => s.value) (r :: rest)).take (j + 1 + 1) := by
          simp [List.take_succ_cons, List.append_assoc]
        have hidx : (vals ++ [r.value]).length + (j + 1) - w =
            vals.length + (j + 1 + 1) - w := by
          simp only [List.length_append, List.length_singleton]
          omega
        rw [hlist, hidx]

/-- Seeded with no prior values, the single-partition recursion is exactly
the spec's min(k, w) trailing average. -/
lemma specGo_nil_eq_spec (w : Nat) (part : List TVRow) :
    specGo w [] part = smoothSpecPart w part := by
  rw [specGo_eq_mapIdx]
  unfold smoothSpecPart
  congr 1
  funext j r
  simp

/-- Filtering to a distinct-date partition commutes with the date sort. -/
lemma sortByDate_filter_comm (df : List TVRow) (p : TVRow → Bool)
    (hd : List.Pairwise (fun a b : TVRow => a.date ≠ b.date) (df.filter p)) :
    (sortByDate df).filter p = sortByDate (df.filter p) := by
  haveI : IsAntisymm TVRow (fun a b : TVRow => a.date < b.date) :=
    ⟨fun a b h h' => absurd h' (Nat.lt_asymm h)⟩
  have hsymm : Symmetric (fun a b : TVRow => a.date ≠ b.date) :=
    fun a b h => Ne.symm h
  have hperm1 : List.Perm ((sortByDate df).filter p) (df.filter p) :=
    (List.perm_insertionSort dateLe df).filter p
  have hperm2 : List.Perm (sortByDate (df.filter p)) (df.filter p) :=
    List.perm_insertionSort dateLe (df.filter p)
  apply List.eq_of_perm_of_sorted (r := fun a b : TVRow => a.date < b.date)
    (hperm1.trans hperm2.symm)
  · have hle : List.Pairwise dateLe (sortByDate df) :=
      List.sorted_insertionSort dateLe df
    have hne := (hperm1.pairwise_iff (fun h => Ne.symm h)).mpr hd
    exact ((hle.filter p).and hne).imp (fun h => lt_of_le_of_ne h.1 h.2)
  · have hle : List.Pairwise dateLe (sortByDate (df.filter p)) :=
      List.sorted_insertionSort dateLe (df.filter p)
    have hne := (hperm2.pairwise_iff (fun h => Ne.symm h)).mpr hd
    exact (hle.and hne).imp (fun h => lt_of_le_of_ne h.1 h.2)

/-- C3: `smooth` with window 1 is the identity; with window w > 1 it drops no
row, and each (outlet, topic) partition, taken in ascending date order,
carries at its k-th row the trailing simple moving average of the most recent
min(k, w) partition values — no look-ahead, shrinking windows at the start
(values [1, 2, 3] under window 30 become [1, 1.5, 2]). -/
theorem smooth_trailing_moving_average (df : List TVRow) (w : Nat) (o t : String)
    (hw : 1 < w)
    (hd : List.Pairwise (fun a b : TVRow => a.date ≠ b.date)
      (df.filter (fun r => decide (r.outlet = o ∧ r.topic = t)))) :
    smooth df 1 = df ∧
    (smooth df w).length = df.length ∧
    (smooth df w).filter (fun r => decide (r.outlet = o ∧ r.topic = t)) =
      smoothSpecPart w
        (sortByDate (df.filter (fun r => decide (r.outlet = o ∧ r.topic = t)))) ∧
    smooth
      [ ⟨20170101, 2017, "CNN", "Economy", "tone", 1⟩,
        ⟨20170102, 2017, "CNN", "Economy", "tone", 2⟩,
        ⟨20170103, 2017, "CNN", "Economy", "tone", 3⟩ ] 30 =
      [ ⟨20170101, 2017, "CNN", "Economy", "tone", 1⟩,
        ⟨20170102, 2017, "CNN", "Economy", "tone", 3/2⟩,
        ⟨20170103, 2017, "CNN", "Economy", "tone", 2⟩ ] := by
  refine ⟨by simp [smooth], ?_, ?_, ?_⟩
  · unfold smooth
    rw [if_neg (by omega), smoothGo_length]
    exact (List.perm_insertionSort dateLe df).length_eq
  · unfold smooth
    rw [if_neg (by omega), smoothGo_filter]
    simp only [List.filter_nil, List.map_nil]
    rw [sortByDate_filter_comm df _ hd, specGo_nil_eq_spec]
  · norm_num [smooth, sortByDate, List.insertionSort, List.orderedInsert,
      dateLe, smoothGo, setValue, windowMean, mean]

/-- A concrete instantiation of `smooth_trailing_moving_average` on a 2-row
single-partition table with window 7. -/
theorem smooth_trailing_moving_average_witness :
    smooth smoothFixture 1 = smoothFixture ∧
    (smooth smoothFixture 7).length = smoothFixture.length ∧
    (smooth smoothFixture 7).filter
        (fun r => decide (r.outlet = "CNN" ∧ r.topic = "Economy")) =
      smoothSpecPart 7
        (sortByDate (smoothFixture.filter
          (fun r => decide (r.outlet = "CNN" ∧ r.topic = "Economy")))) ∧
    smooth
      [ ⟨20170101, 2017, "CNN", "Economy", "tone", 1⟩,
        ⟨20170102, 2017, "CNN", "Economy", "tone", 2⟩,
        ⟨20170103, 2017, "CNN", "Economy", "tone", 3⟩ ] 30 =
      [ ⟨20170101, 2017, "CNN", "Economy", "tone", 1⟩,
        ⟨20170102, 2017, "CNN", "Economy", "tone", 3/2⟩,
        ⟨20170103, 2017, "CNN", "Economy", "tone", 2⟩ ] :=
  smooth_trailing_moving_average smoothFixture 7 "CNN" "Economy" (by decide) (by decide)

/-- The last element of a pairwise-related list is related to every earlier
element. -/
lemma pairwise_getLast_rel {α : Type} {R : α → α → Prop} :
    ∀ (l : List α) (x : α), List.Pairwise R l → l.getLast? = some x →
      ∀ q ∈ l, q = x ∨ R q x := by
  intro l
  induction l with
  | nil => intro x _ h; cases h
  | cons a rest ih =>
      intro x hp hlast q hq
      rcases List.mem_cons.mp hq with rfl | hqrest
      · cases rest with
        | nil =>
            rw [List.getLast?_singleton, Option.some.injEq] at hlast
            exact Or.inl hlast
        | cons b tl =>
            rw [List.getLast?_cons_cons] at hlast
            exact Or.inr ((List.pairwise_cons.mp hp).1 x
              (List.mem_of_mem_getLast? hlast))
      · cases rest with
        | nil => cases hqrest
        | cons b tl =>
            rw [List.getLast?_cons_cons] at hlast
            exact ih x (List.pairwise_cons.mp hp).2 hlast q hqrest

/-- The (topic, year) keys of the heatmap cells are pairwise distinct
(they come from a group-by). -/
lemma tyCells_key_pairwise (rows : List TVRow) :
    List.Pairwise (fun a b : TYCell => a.topic ≠ b.topic ∨ a.year ≠ b.year)
      (tyCells rows) := by
  unfold tyCells topicYearStats
  rw [List.map_map, List.pairwise_map]
  refine (List.nodup_dedup (rows.map (fun r => (r.year, r.topic)))).imp ?_
  intro a b hab
  by_contra hcon
  push_neg at hcon
  exact hab (Prod.ext hcon.2 hcon.1)

/-- The sorted, key-distinct heatmap cells are pairwise in strict
(topic, year) order. -/
lemma sortTY_pairwise_lt (rows : List TVRow) :
    List.Pairwise lexLt (sortTY (tyCells rows)) := by
  have hle : List.Pairwise lexLe (sortTY (tyCells rows)) :=
    List.sorted_insertionSort lexLe (tyCells rows)
  have hperm : List.Perm (sortTY (tyCells rows)) (tyCells rows) :=
    List.perm_insertionSort lexLe (tyCells rows)
  have hne : List.Pairwise
      (fun a b : TYCell => a.topic ≠ b.topic ∨ a.year ≠ b.year)
      (sortTY (tyCells rows)) :=
    (hperm.pairwise_iff (fun h => h.imp Ne.symm Ne.symm)).mpr
      (tyCells_key_pairwise rows)
  refine (hle.and hne).imp ?_
  rintro a b ⟨h1, h2⟩
  rcases h1 with h | ⟨ht, hy⟩
  · exact Or.inl h
  · rcases h2 with h2 | h2
    · exact absurd ht h2
    · exact Or.inr ⟨ht, lt_of_le_of_ne hy h2⟩

/-- The year-over-year recursion, walked over any strictly (topic, year)-
sorted list: a cell with no same-topic predecessor gets delta 0, and a cell
whose same-topic years below it have maximum at `p` gets its mean minus
`p`'s. -/
lemma yoyGo_delta (L : List TYCell) (hL : List.Pairwise lexLt L) :
    ∀ (l seen : List TYCell), seen ++ l = L →
      ∀ c d, (c, d) ∈ yoyGo seen l →
        ((∀ e ∈ L, e.topic = c.topic → c.year ≤ e.year) → d = 0) ∧
        (∀ p ∈ L, p.topic = c.topic → p.year < c.year →
          (∀ q ∈ L, q.topic = c.topic → q.year < c.year → q.year ≤ p.year) →
          d = c.avgTone - p.avgTone) := by
  intro l
  induction l with
  | nil => intro seen _ c d h; cases h
  | cons a rest ih =>
      intro seen hseenL c d h
      subst hseenL
      obtain ⟨hpseen, hpcons, hcross⟩ := List.pairwise_append.mp hL
      have hpa : ∀ s ∈ seen, lexLt s a :=
        fun s hs => hcross s hs a (List.mem_cons_self a rest)
      have hprest : ∀ r ∈ rest, lexLt a r := (List.pairwise_cons.mp hpcons).1
      simp only [yoyGo] at h
      rcases List.mem_cons.mp h with hhead | htail
      · have hc : c = a := congrArg Prod.fst hhead
        subst hc
        have hd : d = match
            (seen.filter (fun s => decide (s.topic = c.topic))).getLast? with
          | none => 0
          | some p => c.avgTone - p.avgTone := congrArg Prod.snd hhead
        have hkey : ∀ p, p ∈ seen ∧ p.topic = c.topic ↔
            (p ∈ seen ++ c :: rest ∧ p.topic = c.topic ∧ p.year < c.year) := by
          intro p
          constructor
          · rintro ⟨hp, ht⟩
            refine ⟨List.mem_append_left _ hp, ht, ?_⟩
            rcases hpa p hp with h' | ⟨_, hy⟩
            · rw [ht] at h'; exact absurd h' (lt_irrefl _)
            · exact hy
          · rintro ⟨hp, ht, hy⟩
            rcases List.mem_append.mp hp with hp' | hp'
            · exact ⟨hp', ht⟩
            · rcases List.mem_cons.mp hp' with rfl | hp''
              · exact absurd hy (lt_irrefl _)
              · rcases hprest p hp'' with h' | ⟨_, hy'⟩
                · rw [ht] at h'; exact absurd h' (lt_irrefl _)
                · exact absurd hy (not_lt.mpr hy'.le)
        cases hm : (seen.filter (fun s => decide (s.topic = c.topic))).getLast? with
        | none =>
            rw [hm] at hd
            constructor
            · intro _; exact hd
            · intro p hp hpt hpy _
              exfalso
              obtain ⟨hps, hpt'⟩ := (hkey p).mpr ⟨hp, hpt, hpy⟩
              have hpf : p ∈ seen.filter (fun s => decide (s.topic = c.topic)) :=
                List.mem_filter.mpr ⟨hps, by simpa using hpt'⟩
              rw [List.getLast?_eq_none_iff] at hm
              rw [hm] at hpf
              cases hpf
        | some p0 =>
            rw [hm] at hd
            have hp0f : p0 ∈ seen.filter (fun s => decide (s.topic = c.topic)) :=
              List.mem_of_mem_getLast? hm
            have hp0seen : p0 ∈ seen := (List.mem_filter.mp hp0f).1
            have hp0top : p0.topic = c.topic := by
              simpa using (List.mem_filter.mp hp0f).2
            have hp0year : p0.year < c.year :=
              ((hkey p0).mp ⟨hp0seen, hp0top⟩).2.2
            constructor
            · intro hmin
              exact absurd hp0year
                (not_lt.mpr (hmin p0 (List.mem_append_left _ hp0seen) hp0top))
            · intro p hp hpt hpy hmax
              obtain ⟨hps, hpt'⟩ := (hkey p).mpr ⟨hp, hpt, hpy⟩
              have hpf : p ∈ seen.filter (fun s => decide (s.topic = c.topic)) :=
                List.mem_filter.mpr ⟨hps, by simpa using hpt'⟩
              have hpair : List.Pairwise lexLt
                  (seen.filter (fun s => decide (s.topic = c.topic))) :=
                hpseen.filter _
              rcases pairwise_getLast_rel _ p0 hpair hm p hpf with rfl | hlt
              · exact hd
              · exfalso
                rcases hlt with h' | ⟨_, hy⟩
                · rw [hpt', hp0top] at h'
                  exact absurd h' (lt_irrefl _)
                · exact absurd hy (not_lt.mpr
                    (hmax p0 (List.mem_append_left _ hp0seen) hp0top hp0year))
      · exact ih (seen ++ [a]) (by simp) c d htail

/-- C6: in the year-by-topic view, a cell whose year is the earliest of its
topic carries a year-over-year delta of exactly 0 (never null), and any
other cell's delta is its mean tone minus the mean tone of the same topic at
the immediately preceding year present in the data. -/
theorem yoy_delta_per_topic (rows : List TVRow) (c : TYCell) (d : ℚ)
    (h : (c, d) ∈ topicYearRich rows) :
    ((∀ e ∈ tyCells rows, e.topic = c.topic → c.year ≤ e.year) → d = 0) ∧
    (∀ p ∈ tyCells rows, p.topic = c.topic → p.year < c.year →
      (∀ q ∈ tyCells rows, q.topic = c.topic → q.year < c.year → q.year ≤ p.year) →
      d = c.avgTone - p.avgTone) := by
  have hmain := yoyGo_delta (sortTY (tyCells rows)) (sortTY_pairwise_lt rows)
    (sortTY (tyCells rows)) [] rfl c d h
  have hperm : List.Perm (sortTY (tyCells rows)) (tyCells rows) :=
    List.perm_insertionSort lexLe (tyCells rows)
  constructor
  · intro hmin
    exact hmain.1 (fun e he => hmin e (hperm.mem_iff.mp he))
  · intro p hp hpt hpy hmax
    exact hmain.2 p (hperm.mem_iff.mpr hp) hpt hpy
      (fun q hq => hmax q (hperm.mem_iff.mp hq))

/-- A concrete instantiation of `yoy_delta_per_topic` on a one-cell table. -/
theorem yoy_delta_per_topic_witness :
    ((∀ e ∈ tyCells [⟨20200101, 2020, "CNN", "Economy", "tone", 5⟩],
        e.topic = (⟨"Economy", 2020, 5⟩ : TYCell).topic →
        (⟨"Economy", 2020, 5⟩ : TYCell).year ≤ e.year) → (0 : ℚ) = 0) ∧
    (∀ p ∈ tyCells [⟨20200101, 2020, "CNN", "Economy", "tone", 5⟩],
      p.topic = (⟨"Economy", 2020, 5⟩ : TYCell).topic →
      p.year < (⟨"Economy", 2020, 5⟩ : TYCell).year →
      (∀ q ∈ tyCells [⟨20200101, 2020, "CNN", "Economy", "tone", 5⟩],
        q.topic = (⟨"Economy", 2020, 5⟩ : TYCell).topic →
        q.year < (⟨"Economy", 2020, 5⟩ : TYCell).year → q.year ≤ p.year) →
      (0 : ℚ) = (⟨"Economy", 2020, 5⟩ : TYCell).avgTone - p.avgTone) :=
  yoy_delta_per_topic [⟨20200101, 2020, "CNN", "Economy", "tone", 5⟩]
    ⟨"Economy", 2020, 5⟩ 0
    (by norm_num [topicYearRich, tyCells, topicYearStats, valuesYT, sortTY,
      List.insertionSort, List.orderedInsert, yoyGo, mean, sampleVar])

end MediaLens
